import Mathlib

/-!
Verification of the pdf2square library (src/lib.js) against its specification.

The library is an orchestration layer: external collaborators (poppler's
pdfinfo / pdftocairo / pdftotext, and the sharp image library) are modelled as
parameters (page counts, rendered directory listings, per-page job outcomes),
while every piece of logic implemented in src/lib.js itself — the page-range
resolver, the rendered-file lister `listPagePngs`, the background-colour
parser `parseBackground`, the concurrency limiter `pLimit`, the result
assembly and sort of `convert` — is embedded as executable Lean definitions
below, translated line by line from the source.
-/

namespace Pdf2Square

/-! ## Colours and the background parser (src/lib.js, parseBackground) -/

/-- An RGBA colour as produced by `parseBackground`: `r`,`g`,`b` are the
0–255 channel values, `alpha` the JS float in [0,1] (modelled as a rational). -/
structure ColorSpec where
  r : Nat
  g : Nat
  b : Nat
  alpha : Rat
  deriving DecidableEq, Repr

/-- ASCII lowercasing, the effect of `String.prototype.toLowerCase` on the
colour strings this library handles. -/
def toLowerL (s : List Char) : List Char := s.map Char.toLower

/-- JS whitespace as far as `String.prototype.trim` meets it here. -/
def isSpaceChar (c : Char) : Bool :=
  c = ' ' || c = '\t' || c = '\n' || c = '\r' || c = '\x0c' || c = '\x0b'

/-- `String.prototype.trim`: strip leading and trailing whitespace. -/
def trimL (s : List Char) : List Char :=
  ((s.dropWhile isSpaceChar).reverse.dropWhile isSpaceChar).reverse

/-- Hex digit predicate matching the source regex `[0-9a-f]` applied to the
already-lowercased string (the `/i` flag adds nothing after `toLowerCase`). -/
def isHexLower (c : Char) : Bool :=
  c.isDigit || ('a' ≤ c && c ≤ 'f')

/-- Value of one lowercase hex digit, as `parseInt(·, 16)` computes it. -/
def hexVal (c : Char) : Nat :=
  if c.isDigit then c.toNat - '0'.toNat else c.toNat - 'a'.toNat + 10

/-- `parseInt(hex.slice(i, i+2), 16)` for a two-character slice. -/
def hexByte (c₁ c₂ : Char) : Nat := hexVal c₁ * 16 + hexVal c₂

/-- Builds the colour record from the validated hex digits, mirroring the
`parseInt(hex.slice(0,2),16)` … lines and
`hex.length === 8 ? parseInt(hex.slice(6,8),16)/255 : 1`. -/
def colorOfHex (ds : List Char) : ColorSpec :=
  match ds with
  | [a, b, c, d, e, f] => ⟨hexByte a b, hexByte c d, hexByte e f, 1⟩
  | [a, b, c, d, e, f, g, h] =>
      ⟨hexByte a b, hexByte c d, hexByte e f, (hexByte g h : Rat) / 255⟩
  | _ => ⟨0, 0, 0, 1⟩

/-- The `hex = s.startsWith("#") ? s.slice(1) : s` step of the source. -/
def stripHash (s : List Char) : List Char :=
  if s.head? = some '#' then s.tail else s

/-- The background parser of src/lib.js.  Input is the raw `bg` option and the
lowercased output format; the result pairs the colour with a flag recording
whether the non-fatal "JPEG cannot be transparent" console warning was
emitted.  `Except.error` models the thrown `Invalid background color` error. -/
def parseBackgroundCore (s : List Char) (fmt : String) : Except String (ColorSpec × Bool) :=
  if s = "transparent".data || s = "#0000".data then
    if fmt = "png" then
      .ok (⟨0, 0, 0, 0⟩, false)
    else
      .ok (⟨255, 255, 255, 1⟩, true)
  else
    let hex := stripHash s
    if (hex.length = 6 || hex.length = 8) && hex.all isHexLower then
      .ok (colorOfHex hex, false)
    else
      .error "Invalid background color. Use '#RRGGBB', '#RRGGBBAA', or 'transparent'."

/-- Entry point as in the source: first `String(input).trim().toLowerCase()`,
then the dispatch of `parseBackgroundCore`. -/
def parseBackground (input fmt : String) : Except String (ColorSpec × Bool) :=
  parseBackgroundCore (toLowerL (trimL input.data)) fmt

/-! ## Concurrency option resolution (src/lib.js, line `pLimit(Number(opts.concurrency) || 4)`) -/

/-- A JavaScript number as far as `Number(x) || 4` can observe it: either a
numeric value or `NaN`. -/
inductive JSNum where
  | num (q : Rat)
  | nan
  deriving DecidableEq, Repr

/-- JavaScript `x || d` for a number `x`: both `0` and `NaN` are falsy. -/
def jsOrDefault (x : JSNum) (d : Rat) : Rat :=
  match x with
  | .nan => d
  | .num q => if q = 0 then d else q

/-- The limit handed to `pLimit` by `convert`: `Number(opts.concurrency) || 4`. -/
def resolvedConcurrency (c : JSNum) : Rat := jsOrDefault c 4

/-! ## Rendered-file listing (src/lib.js, listPagePngs / escapeRegex) -/

/-- Value of a decimal digit character. -/
def digitVal (c : Char) : Nat := c.toNat - '0'.toNat

/-- `Number(m[1])` on the digit group captured by the filename regex
(left-to-right accumulation, leading zeros allowed). -/
def digitsToNat (ds : List Char) : Nat := ds.foldl (fun a c => a * 10 + digitVal c) 0

/-- Decimal rendering of a page number, fuel-indexed so it stays
kernel-reducible. -/
def natDigitsAux : Nat → Nat → List Char
  | 0, _ => []
  | fuel + 1, n =>
      if n < 10 then [Nat.digitChar n]
      else natDigitsAux fuel (n / 10) ++ [Nat.digitChar (n % 10)]

/-- Decimal rendering of a natural number, most significant digit first. -/
def natDigits (n : Nat) : List Char := natDigitsAux (n + 1) n

/-- Strip `pre` from the front of a character list, the anchored literal part
of the regex `^base-`. -/
def dropFront : List Char → List Char → Option (List Char)
  | [], ys => some ys
  | _ :: _, [] => none
  | x :: xs, y :: ys => if x = y then dropFront xs ys else none

/-- Strip `suf` from the back of a character list, the anchored literal part
of the regex `\.png$`. -/
def dropBack (suf name : List Char) : Option (List Char) :=
  (dropFront suf.reverse name.reverse).map List.reverse

/-- The regex `^${escapeRegex(base)}-(\d+)\.png$` of `listPagePngs`: a name
matches iff it is `base`, a dash, one or more decimal digits, then `.png`;
the match result is the captured page number `Number(m[1])`. -/
def matchPagePng (base name : List Char) : Option Nat :=
  match dropFront (base ++ ['-']) name with
  | none => none
  | some rest =>
    match dropBack ".png".data rest with
    | none => none
    | some ds =>
      if ds ≠ [] ∧ ds.all Char.isDigit then some (digitsToNat ds) else none

/-- The `.map(name => m ? { name, page } : null).filter(Boolean)` step. -/
def pageEntry (base name : List Char) : Option (List Char × Nat) :=
  (matchPagePng base name).map (fun p => (name, p))

/-- A comparison sort by a natural-number key, modelling
`.sort((a, b) => a.page - b.page)` and `.sort((a, b) => a.pageNumber - b.pageNumber)`. -/
def sortByKey {α : Type} (key : α → Nat) (l : List α) : List α :=
  List.insertionSort (fun a b => key a ≤ key b) l

/-- `listPagePngs(dir, base, first, last)` of src/lib.js, with the directory
listing `entries` (the result of `fs.readdir`) passed in: keep the names
matching the page-png regex, keep pages within `[first, last]`, and sort by
page number. -/
def listPagePngs (entries : List (List Char)) (base : List Char) (first last : Int) :
    List (List Char × Nat) :=
  sortByKey (fun e => e.2)
    ((entries.filterMap (pageEntry base)).filter
      (fun e => first ≤ (e.2 : Int) && (e.2 : Int) ≤ last))

/-! ## The convert pipeline (src/lib.js, convert) -/

/-- `Math.max(1, Number(opts.first))`. -/
def resolvedFirst (first : Int) : Int := max 1 first

/-- `Math.min(totalPages, firstPage + Number(opts.maxPages) - 1)`. -/
def resolvedLast (totalPages first maxPages : Int) : Int :=
  min totalPages (resolvedFirst first + maxPages - 1)

/-- The failure conditions `convert` can surface. -/
inductive ConvError where
  | pageCount
  | noPages
  | render
  | badFormat
  | invalidColor
  | job (page : Nat)
  deriving DecidableEq, Repr

/-- One element of the array `convert` resolves with (the source's
`ConvertedPDFPage` typedef). -/
structure ConvertedPDFPage where
  pageNumber : Nat
  originalPath : String
  base64EncodedImage : String
  extractedText : String
  deriving DecidableEq, Repr

/-- The mime tag of the data URL: `fmt === 'jpg' ? 'jpeg' : fmt`. -/
def mimeOf (fmt : String) : String := if fmt = "jpg" then "jpeg" else fmt

/-- The `tempBaseName` constant of `convert`. -/
def tempBaseName : List Char := "temp-pdf".data

/-- The per-page jobs of `convert`, in file order as `Promise.all` returns
them.  `job p` stands for the external work of one page — the sharp
resize-and-encode producing the base64 payload and the `pdfToText` call —
and yields that page's image string and raw text.  A single job failure
rejects the whole batch with that page's error. -/
def runJobs (pdfAbs fmt : String) (job : Nat → Except Unit (String × String)) :
    List (List Char × Nat) → Except ConvError (List ConvertedPDFPage)
  | [] => .ok []
  | e :: rest =>
    match job e.2 with
    | .error _ => .error (.job e.2)
    | .ok (img, txt) =>
      match runJobs pdfAbs fmt job rest with
      | .error er => .error er
      | .ok rs =>
          .ok (⟨e.2, pdfAbs,
                "data:image/" ++ mimeOf fmt ++ ";base64," ++ img,
                ((trimL txt.data).asString)⟩ :: rs)

/-- The `convert` function of src/lib.js.  External collaborators enter as
parameters: `totalPages` is what `getPdfPages` (pdfinfo) reported, `render`
is the outcome of the `poppler.pdfToCairo` call together with the scratch
directory listing it produced, and `job` the per-page sharp/pdfToText work.
Everything else — range resolution, the `noPages` guard, file listing,
format validation, background parsing, job assembly and the final sort —
is the source's own logic, translated directly. -/
def convert (pathToPdf : String) (totalPages first maxPages : Int)
    (format bgStr : String) (concurrency : JSNum)
    (render : Except Unit (List (List Char)))
    (job : Nat → Except Unit (String × String)) :
    Except ConvError (List ConvertedPDFPage) :=
  if totalPages ≤ 0 then .error .pageCount
  else if resolvedLast totalPages first maxPages < resolvedFirst first then .error .noPages
  else
    match render with
    | .error _ => .error .render
    | .ok entries =>
      if (toLowerL format.data).asString = "png" ∨ (toLowerL format.data).asString = "jpg" ∨
          (toLowerL format.data).asString = "jpeg" then
        match parseBackground bgStr ((toLowerL format.data).asString) with
        | .error _ => .error .invalidColor
        | .ok _bg =>
          match runJobs pathToPdf ((toLowerL format.data).asString) job
              (listPagePngs entries tempBaseName (resolvedFirst first)
                (resolvedLast totalPages first maxPages)) with
          | .error e => .error e
          | .ok results => .ok (sortByKey ConvertedPDFPage.pageNumber results)
      else .error .badFormat

/-- The name `pdftocairo` gives the rendered png of page `p` under the fixed
`tempBaseName` prefix: `temp-pdf-<p>.png`. -/
def fileNameFor (p : Nat) : List Char :=
  tempBaseName ++ '-' :: (natDigits p ++ ".png".data)

/-- The contiguous page range `[lo, hi]` as a list of naturals. -/
def pageRangeList (lo hi : Int) : List Nat :=
  List.range' lo.toNat (hi + 1 - lo).toNat


/-! ## The contain-fit compositor (sharp, an external collaborator) -/

/-- A rectangular raster: pixel dimensions plus a colour at each coordinate. -/
structure Raster where
  width : Nat
  height : Nat
  pix : Nat → Nat → ColorSpec

/-- Width of the scaled source inside the canvas:
`width * targetSize / max(width, height)`. -/
def scaledW (r : Raster) (t : Nat) : Nat := r.width * t / max r.width r.height

/-- Height of the scaled source inside the canvas. -/
def scaledH (r : Raster) (t : Nat) : Nat := r.height * t / max r.width r.height

/-- Left offset centring the scaled source horizontally. -/
def scaledOffX (r : Raster) (t : Nat) : Nat := (t - scaledW r t) / 2

/-- Top offset centring the scaled source vertically. -/
def scaledOffY (r : Raster) (t : Nat) : Nat := (t - scaledH r t) / 2

/-- Modelled from the spec: the compositing step of each page job is
`img.resize(size, size, { fit: "contain", background: bg })` from the
external sharp library, which is not code of this repository.  Following the
spec's contract, the source raster is scaled uniformly by
`targetSize / max(width, height)` so its longer dimension spans the canvas,
centred on both axes, and every canvas pixel not covered by the scaled
source is the background colour; covered pixels sample the source at the
inverse scale. -/
def resizeContain (r : Raster) (t : Nat) (bg : ColorSpec) : Raster :=
  { width := t
    height := t
    pix := fun x y =>
      if scaledOffX r t ≤ x ∧ x < scaledOffX r t + scaledW r t ∧
          scaledOffY r t ≤ y ∧ y < scaledOffY r t + scaledH r t then
        r.pix ((x - scaledOffX r t) * max r.width r.height / t)
          ((y - scaledOffY r t) * max r.width r.height / t)
      else bg }


/-! ## The concurrency limiter (src/lib.js, pLimit) -/

/-- An observable scheduling event of the limiter: a task thunk is submitted
(the closure returned by `pLimit` is invoked), or a running task settles —
`ok` records whether its promise fulfilled or rejected. -/
inductive LimitEvent where
  | submit (t : Nat)
  | settle (t : Nat) (ok : Bool)
  deriving DecidableEq, Repr

/-- State of `pLimit(n)`: the source's `active` counter is
`running.length`; `queue` mirrors the `queue` array in submission order;
`started` records tasks in the order `next()` launched them; `settled`
records each finished task with the outcome that `then(resolve, reject)`
delivered to that task's own promise. -/
structure LimitState where
  limit : Nat
  queue : List Nat
  running : List Nat
  started : List Nat
  settled : List (Nat × Bool)
  deriving DecidableEq, Repr

/-- The body of `next()`: return unless `active < n` and the queue is
non-empty; otherwise shift one task off the queue and start it. -/
def tryNext (s : LimitState) : LimitState :=
  match s.queue with
  | [] => s
  | t :: q =>
    if s.running.length < s.limit then
      { s with queue := q, running := s.running ++ [t], started := s.started ++ [t] }
    else s

/-- One limiter event.  Submitting pushes the task and calls `next()`.  A
settling task leaves the running set, its outcome is recorded for its own
promise, and `.finally` calls `next()` — the same transition whether the
task fulfilled or rejected. -/
def limitStep (s : LimitState) : LimitEvent → LimitState
  | .submit t => tryNext { s with queue := s.queue ++ [t] }
  | .settle t ok =>
    if t ∈ s.running then
      tryNext { s with running := s.running.erase t, settled := s.settled ++ [(t, ok)] }
    else s

/-- Run a trace of limiter events. -/
def limitRun (s : LimitState) (es : List LimitEvent) : LimitState := es.foldl limitStep s

/-- `pLimit(n)` before any submission. -/
def limitInit (n : Nat) : LimitState := ⟨n, [], [], [], []⟩

/-- The tasks submitted in a trace, in order. -/
def submitsOf (es : List LimitEvent) : List Nat :=
  es.filterMap (fun e => match e with | .submit t => some t | _ => none)

/-- Replace every settlement outcome by success. -/
def forgetOutcome (e : LimitEvent) : LimitEvent :=
  match e with
  | .settle t _ => .settle t true
  | e => e

/-- The scheduling-relevant part of the state — everything but the recorded
outcomes. -/
def sched (s : LimitState) : Nat × List Nat × List Nat × List Nat :=
  (s.limit, s.queue, s.running, s.started)

/-- The limiter's safety invariant: never more than `limit` running, and a
non-empty queue means the running set is saturated. -/
def LimitInv (s : LimitState) : Prop :=
  s.running.length ≤ s.limit ∧ (s.queue ≠ [] → s.running.length = s.limit)

/-! ## Theorems -/

/-! ### Supporting lemmas -/

theorem digitVal_digitChar {d : Nat} (h : d < 10) : digitVal (Nat.digitChar d) = d := by
  interval_cases d <;> rfl

theorem isDigit_digitChar {d : Nat} (h : d < 10) : (Nat.digitChar d).isDigit = true := by
  interval_cases d <;> rfl

theorem digitsToNat_append (xs : List Char) (c : Char) :
    digitsToNat (xs ++ [c]) = digitsToNat xs * 10 + digitVal c := by
  simp [digitsToNat, List.foldl_append]

theorem natDigitsAux_spec : ∀ (fuel n : Nat), n < fuel →
    digitsToNat (natDigitsAux fuel n) = n ∧ natDigitsAux fuel n ≠ [] ∧
      (natDigitsAux fuel n).all Char.isDigit = true := by
  intro fuel
  induction fuel with
  | zero => omega
  | succ fuel ih =>
    intro n hn
    by_cases h10 : n < 10
    · refine ⟨?_, ?_, ?_⟩ <;> simp [natDigitsAux, h10, digitsToNat, digitVal_digitChar h10,
        isDigit_digitChar h10]
    · have hdiv : n / 10 < fuel := by omega
      obtain ⟨h₁, h₂, h₃⟩ := ih (n / 10) hdiv
      refine ⟨?_, ?_, ?_⟩
      · rw [natDigitsAux, if_neg h10, digitsToNat_append, h₁, digitVal_digitChar (by omega)]
        omega
      · simp [natDigitsAux, h10]
      · rw [natDigitsAux, if_neg h10]
        simp only [List.all_append, h₃, Bool.true_and, List.all_cons, List.all_nil,
          Bool.and_true]
        exact isDigit_digitChar (by omega)

theorem digitsToNat_natDigits (n : Nat) : digitsToNat (natDigits n) = n :=
  (natDigitsAux_spec (n + 1) n (by omega)).1

theorem natDigits_ne_nil (n : Nat) : natDigits n ≠ [] :=
  (natDigitsAux_spec (n + 1) n (by omega)).2.1

theorem natDigits_all_digits (n : Nat) : (natDigits n).all Char.isDigit = true :=
  (natDigitsAux_spec (n + 1) n (by omega)).2.2

theorem dropFront_append (xs ys : List Char) : dropFront xs (xs ++ ys) = some ys := by
  induction xs with
  | nil => rfl
  | cons x xs ih => simp [dropFront, ih]

theorem dropBack_append (suf ds : List Char) : dropBack suf (ds ++ suf) = some ds := by
  simp [dropBack, List.reverse_append, dropFront_append]

theorem matchPagePng_fileNameFor (p : Nat) :
    matchPagePng tempBaseName (fileNameFor p) = some p := by
  have h₁ : fileNameFor p = (tempBaseName ++ ['-']) ++ (natDigits p ++ ".png".data) := by
    simp [fileNameFor]
  simp only [matchPagePng, h₁, dropFront_append, dropBack_append]
  simp [natDigits_ne_nil p, natDigits_all_digits p, digitsToNat_natDigits p]


theorem sortByKey_perm {α : Type} (key : α → Nat) (l : List α) :
    List.Perm (sortByKey key l) l :=
  List.perm_insertionSort _ l

theorem sortByKey_sorted {α : Type} (key : α → Nat) (l : List α) :
    List.Sorted (fun a b => key a ≤ key b) (sortByKey key l) := by
  haveI : IsTotal α (fun a b => key a ≤ key b) := ⟨fun a b => Nat.le_total _ _⟩
  haveI : IsTrans α (fun a b => key a ≤ key b) := ⟨fun a b c h₁ h₂ => Nat.le_trans h₁ h₂⟩
  exact List.sorted_insertionSort _ l

theorem sortByKey_map_sorted {α : Type} (key : α → Nat) (l : List α) :
    List.Sorted (· ≤ ·) ((sortByKey key l).map key) :=
  List.pairwise_map.mpr ((sortByKey_sorted key l).imp (fun hab => hab))

theorem pageRangeList_sorted (lo hi : Int) :
    List.Sorted (· ≤ ·) (pageRangeList lo hi) :=
  (List.pairwise_lt_range' _ _).imp (fun h => Nat.le_of_lt h)

theorem mem_pageRangeList {lo hi : Int} (hlo : 0 < lo) {p : Nat} :
    p ∈ pageRangeList lo hi ↔ lo ≤ (p : Int) ∧ (p : Int) ≤ hi := by
  rw [pageRangeList, List.mem_range'_1]
  omega

theorem filterMap_all_some {α β : Type} (f : α → Option β) (g : α → β) (l : List α)
    (h : ∀ x ∈ l, f x = some (g x)) : l.filterMap f = l.map g := by
  induction l with
  | nil => rfl
  | cons x xs ih =>
    rw [List.filterMap_cons, h x (by simp), List.map_cons,
      ih (fun y hy => h y (by simp [hy]))]

theorem runJobs_ok_pages (pdfAbs fmt : String) (job : Nat → Except Unit (String × String)) :
    ∀ (files : List (List Char × Nat)) (rs : List ConvertedPDFPage),
      runJobs pdfAbs fmt job files = .ok rs →
      rs.map ConvertedPDFPage.pageNumber = files.map (fun e => e.2) := by
  intro files
  induction files with
  | nil =>
    intro rs h
    simp only [runJobs] at h
    cases h
    rfl
  | cons e rest ih =>
    intro rs h
    simp only [runJobs] at h
    rcases hj : job e.2 with v | ⟨img, txt⟩ <;> rw [hj] at h
    · exact Except.noConfusion h
    · rcases hr : runJobs pdfAbs fmt job rest with er | rs' <;> rw [hr] at h
      · exact Except.noConfusion h
      · cases h
        simp [ih rs' hr]

theorem runJobs_ok_of_all (pdfAbs fmt : String) (job : Nat → Except Unit (String × String)) :
    ∀ (files : List (List Char × Nat)),
      (∀ e ∈ files, ∃ v, job e.2 = .ok v) →
      ∃ rs, runJobs pdfAbs fmt job files = .ok rs := by
  intro files
  induction files with
  | nil => exact fun _ => ⟨[], rfl⟩
  | cons e rest ih =>
    intro h
    obtain ⟨⟨img, txt⟩, hv⟩ := h e (by simp)
    obtain ⟨rs, hrs⟩ := ih (fun y hy => h y (by simp [hy]))
    exact ⟨⟨e.2, pdfAbs, "data:image/" ++ mimeOf fmt ++ ";base64," ++ img,
      (trimL txt.data).asString⟩ :: rs, by simp only [runJobs, hv, hrs]⟩

theorem runJobs_error_shape (pdfAbs fmt : String) (job : Nat → Except Unit (String × String)) :
    ∀ (files : List (List Char × Nat)) (er : ConvError),
      runJobs pdfAbs fmt job files = .error er → ∃ p, er = .job p := by
  intro files
  induction files with
  | nil =>
    intro er h
    exact Except.noConfusion h
  | cons e rest ih =>
    intro er h
    simp only [runJobs] at h
    rcases hj : job e.2 with v | ⟨img, txt⟩ <;> rw [hj] at h
    · cases h
      exact ⟨e.2, rfl⟩
    · rcases hr : runJobs pdfAbs fmt job rest with er' | rs' <;> rw [hr] at h
      · cases h
        exact ih _ hr
      · exact Except.noConfusion h

theorem runJobs_error_of_failure (pdfAbs fmt : String)
    (job : Nat → Except Unit (String × String)) :
    ∀ (files : List (List Char × Nat)) (e : List Char × Nat), e ∈ files →
      job e.2 = .error () → ∃ p, runJobs pdfAbs fmt job files = .error (.job p) := by
  intro files
  induction files with
  | nil => simp
  | cons x rest ih =>
    intro e he hfail
    rcases hj : job x.2 with v | v
    · exact ⟨x.2, by simp only [runJobs, hj]⟩
    · rcases List.mem_cons.mp he with rfl | hmem
      · rw [hj] at hfail
        exact Except.noConfusion hfail
      · obtain ⟨p, hp⟩ := ih e hmem hfail
        rcases v with ⟨img, txt⟩
        exact ⟨p, by simp only [runJobs, hj, hp]⟩


theorem listPagePngs_pages_of_cover (entries : List (List Char)) (rf rl : Int)
    (hrf : 0 < rf)
    (hperm : List.Perm entries ((pageRangeList rf rl).map fileNameFor)) :
    (listPagePngs entries tempBaseName rf rl).map (fun e => e.2) = pageRangeList rf rl := by
  have hcanon : ((pageRangeList rf rl).map fileNameFor).filterMap (pageEntry tempBaseName) =
      (pageRangeList rf rl).map (fun p => (fileNameFor p, p)) := by
    rw [List.filterMap_map]
    exact filterMap_all_some _ _ _ (fun p _ => by
      simp [Function.comp, pageEntry, matchPagePng_fileNameFor])
  have hperm₂ : List.Perm (entries.filterMap (pageEntry tempBaseName))
      ((pageRangeList rf rl).map (fun p => (fileNameFor p, p))) := by
    rw [← hcanon]
    exact hperm.filterMap _
  have hfilter : (((pageRangeList rf rl).map (fun p => (fileNameFor p, p))).filter
      (fun e => rf ≤ (e.2 : Int) && (e.2 : Int) ≤ rl)) =
      (pageRangeList rf rl).map (fun p => (fileNameFor p, p)) := by
    apply List.filter_eq_self.mpr
    intro e he
    obtain ⟨p, hp, rfl⟩ := List.mem_map.mp he
    have hb := (mem_pageRangeList hrf).mp hp
    simp only [decide_eq_true_eq, Bool.and_eq_true]
    exact ⟨by simpa using hb.1, by simpa using hb.2⟩
  have hperm₃ : List.Perm ((entries.filterMap (pageEntry tempBaseName)).filter
      (fun e => rf ≤ (e.2 : Int) && (e.2 : Int) ≤ rl))
      ((pageRangeList rf rl).map (fun p => (fileNameFor p, p))) := by
    refine (hperm₂.filter _).trans ?_
    rw [hfilter]
  have hpagesperm : List.Perm ((listPagePngs entries tempBaseName rf rl).map (fun e => e.2))
      (pageRangeList rf rl) := by
    unfold listPagePngs
    refine ((sortByKey_perm _ _).map _).trans ?_
    refine (hperm₃.map _).trans ?_
    rw [List.map_map]
    have : ((fun e : List Char × Nat => e.2) ∘ fun p => (fileNameFor p, p)) = id := rfl
    rw [this, List.map_id]
  exact List.eq_of_perm_of_sorted hpagesperm
    (sortByKey_map_sorted (fun e : List Char × Nat => e.2) _) (pageRangeList_sorted rf rl)

theorem mem_listPagePngs_pages (entries : List (List Char)) (base : List Char)
    (rf rl : Int) (p : Nat) :
    p ∈ (listPagePngs entries base rf rl).map (fun e => e.2) ↔
      ((∃ name ∈ entries, matchPagePng base name = some p) ∧
        rf ≤ (p : Int) ∧ (p : Int) ≤ rl) := by
  unfold listPagePngs
  rw [List.Perm.mem_iff ((sortByKey_perm (fun e : List Char × Nat => e.2) _).map
    (fun e : List Char × Nat => e.2))]
  simp only [List.mem_map, List.mem_filter, List.mem_filterMap, pageEntry,
    Option.map_eq_some', Bool.and_eq_true, decide_eq_true_eq]
  constructor
  · rintro ⟨e, ⟨⟨name, hname, q, hq, rfl⟩, hlo, hhi⟩, rfl⟩
    exact ⟨⟨name, hname, hq⟩, hlo, hhi⟩
  · rintro ⟨⟨name, hname, hmatch⟩, hlo, hhi⟩
    exact ⟨(name, p), ⟨⟨name, hname, p, hmatch, rfl⟩, hlo, hhi⟩, rfl⟩


/-! ### Range, ordering and failure claims about convert -/

theorem convert_main (pathToPdf : String) (totalPages first maxPages : Int)
    (format bgStr : String) (conc : JSNum) (entries : List (List Char))
    (job : Nat → Except Unit (String × String))
    (htp : 0 < totalPages)
    (hrange : resolvedFirst first ≤ resolvedLast totalPages first maxPages)
    (hfmt : (toLowerL format.data).asString = "png" ∨ (toLowerL format.data).asString = "jpg" ∨
      (toLowerL format.data).asString = "jpeg")
    (hbg : ∃ c, parseBackground bgStr ((toLowerL format.data).asString) = .ok c) :
    convert pathToPdf totalPages first maxPages format bgStr conc (.ok entries) job =
      match runJobs pathToPdf ((toLowerL format.data).asString) job
          (listPagePngs entries tempBaseName (resolvedFirst first)
            (resolvedLast totalPages first maxPages)) with
      | .error e => .error e
      | .ok results => .ok (sortByKey ConvertedPDFPage.pageNumber results) := by
  obtain ⟨c, hc⟩ := hbg
  unfold convert
  rw [if_neg (by omega), if_neg (not_lt.mpr hrange)]
  simp only [eq_true hfmt, if_true, hc]

theorem listPagePngs_pages_sorted (entries : List (List Char)) (base : List Char)
    (rf rl : Int) :
    List.Sorted (· ≤ ·) ((listPagePngs entries base rf rl).map (fun e => e.2)) := by
  unfold listPagePngs
  exact sortByKey_map_sorted (fun e : List Char × Nat => e.2) _

/-- C2: with a positive page count, convert fails with the NoPagesInRange
error exactly when `resolvedLast < resolvedFirst`, where
`resolvedFirst = max(1, first)` and
`resolvedLast = min(totalPages, resolvedFirst + maxPages - 1)`; in particular
`totalPages=5, first=10, maxPages=3` fails and `totalPages=5, first=3,
maxPages=10` resolves to the range [3,5]. -/
theorem convert_noPages_iff (pathToPdf : String) (totalPages first maxPages : Int)
    (format bgStr : String) (conc : JSNum) (render : Except Unit (List (List Char)))
    (job : Nat → Except Unit (String × String)) (htp : 0 < totalPages) :
    (convert pathToPdf totalPages first maxPages format bgStr conc render job =
        .error .noPages ↔
      resolvedLast totalPages first maxPages < resolvedFirst first) ∧
    resolvedFirst first = max 1 first ∧
    resolvedLast totalPages first maxPages = min totalPages (max 1 first + maxPages - 1) ∧
    resolvedFirst 10 = 10 ∧ resolvedLast 5 10 3 = 5 ∧
    resolvedFirst 3 = 3 ∧ resolvedLast 5 3 10 = 5 := by
  refine ⟨?_, rfl, rfl, by decide, by decide, by decide, by decide⟩
  unfold convert
  rw [if_neg (by omega)]
  rcases em (resolvedLast totalPages first maxPages < resolvedFirst first) with h | h
  · rw [if_pos h]
    simpa using h
  · rw [if_neg h]
    simp only [h, iff_false]
    rcases render with u | entries
    · simp
    · rcases em ((toLowerL format.data).asString = "png" ∨
          (toLowerL format.data).asString = "jpg" ∨
          (toLowerL format.data).asString = "jpeg") with hf | hf
      · simp only [eq_true hf, if_true]
        rcases hpb : parseBackground bgStr ((toLowerL format.data).asString) with e | c
        · simp
        · rcases hrj : runJobs pathToPdf ((toLowerL format.data).asString) job
              (listPagePngs entries tempBaseName (resolvedFirst first)
                (resolvedLast totalPages first maxPages)) with er | rs
          · obtain ⟨p, rfl⟩ := runJobs_error_shape _ _ _ _ _ hrj
            simp
          · simp
      · simp [hf]

/-- Witness for C2: the concrete request totalPages=5, first=10, maxPages=3
fails with the NoPagesInRange error. -/
theorem convert_noPages_iff_witness :
    convert "doc.pdf" 5 10 3 "png" "#ffffff" .nan (.ok []) (fun _ => .ok ("", "")) =
      .error .noPages :=
  ((convert_noPages_iff "doc.pdf" 5 10 3 "png" "#ffffff" .nan (.ok [])
    (fun _ => .ok ("", "")) (by decide)).1).mpr (by decide)

/-- C1: whenever convert succeeds with the renderer having produced exactly
one `temp-pdf-<p>.png` per page of the resolved range — in any directory
order, which is how out-of-order job completion reaches the result
assembly — the returned page numbers are exactly the contiguous range
`[resolvedFirst, resolvedLast]`, strictly ascending, each page exactly
once (stated as equality with `pageRangeList`, a strictly increasing
enumeration of the range). -/
theorem convert_pages_exact_range (pathToPdf : String) (totalPages first maxPages : Int)
    (format bgStr : String) (conc : JSNum) (entries : List (List Char))
    (job : Nat → Except Unit (String × String))
    (htp : 0 < totalPages)
    (hrange : resolvedFirst first ≤ resolvedLast totalPages first maxPages)
    (hfmt : (toLowerL format.data).asString = "png" ∨
      (toLowerL format.data).asString = "jpg" ∨ (toLowerL format.data).asString = "jpeg")
    (hbg : ∃ c, parseBackground bgStr ((toLowerL format.data).asString) = .ok c)
    (hjob : ∀ p, ∃ v, job p = .ok v)
    (hentries : List.Perm entries
      ((pageRangeList (resolvedFirst first)
        (resolvedLast totalPages first maxPages)).map fileNameFor)) :
    ∃ rs, convert pathToPdf totalPages first maxPages format bgStr conc (.ok entries) job =
        .ok rs ∧
      rs.map ConvertedPDFPage.pageNumber =
        pageRangeList (resolvedFirst first) (resolvedLast totalPages first maxPages) := by
  have hrf : 0 < resolvedFirst first := by
    unfold resolvedFirst
    omega
  obtain ⟨rs₀, hrs₀⟩ := runJobs_ok_of_all pathToPdf ((toLowerL format.data).asString) job
    (listPagePngs entries tempBaseName (resolvedFirst first)
      (resolvedLast totalPages first maxPages)) (fun e _ => hjob e.2)
  refine ⟨sortByKey ConvertedPDFPage.pageNumber rs₀, ?_, ?_⟩
  · rw [convert_main pathToPdf totalPages first maxPages format bgStr conc entries job
      htp hrange hfmt hbg, hrs₀]
  · have h₁ := runJobs_ok_pages _ _ _ _ _ hrs₀
    have h₂ := listPagePngs_pages_of_cover entries _ _ hrf hentries
    have hperm : List.Perm
        ((sortByKey ConvertedPDFPage.pageNumber rs₀).map ConvertedPDFPage.pageNumber)
        (pageRangeList (resolvedFirst first) (resolvedLast totalPages first maxPages)) := by
      refine ((sortByKey_perm _ _).map _).trans ?_
      rw [h₁, h₂]
    exact List.eq_of_perm_of_sorted hperm (sortByKey_map_sorted _ _)
      (pageRangeList_sorted _ _)

/-- Witness for C1 at a concrete 3-page document whose rendered files are
listed out of order. -/
theorem convert_pages_exact_range_witness :
    ∃ rs, convert "doc.pdf" 3 1 10 "png" "#ffffff" (.num 2)
        (.ok ["temp-pdf-2.png".data, "temp-pdf-1.png".data, "temp-pdf-3.png".data])
        (fun _ => .ok ("imgdata", "text")) = .ok rs ∧
      rs.map ConvertedPDFPage.pageNumber = pageRangeList 1 3 := by
  have h := convert_pages_exact_range "doc.pdf" 3 1 10 "png" "#ffffff" (.num 2)
    ["temp-pdf-2.png".data, "temp-pdf-1.png".data, "temp-pdf-3.png".data]
    (fun _ => .ok ("imgdata", "text"))
    (by decide) (by decide) (Or.inl (by decide))
    ⟨(⟨255, 255, 255, 1⟩, false), rfl⟩
    (fun p => ⟨("imgdata", "text"), rfl⟩)
    (by decide)
  simpa using h

/-- C9: convert builds one result per rendered png found in the scratch
directory whose name matches the expected pattern and lies in the resolved
range; a page of the range with no matching file is silently left out of the
result — an empty listing yields an empty array — and no error is raised. -/
theorem convert_omits_missing_pages (pathToPdf : String) (totalPages first maxPages : Int)
    (format bgStr : String) (conc : JSNum) (entries : List (List Char))
    (job : Nat → Except Unit (String × String))
    (htp : 0 < totalPages)
    (hrange : resolvedFirst first ≤ resolvedLast totalPages first maxPages)
    (hfmt : (toLowerL format.data).asString = "png" ∨
      (toLowerL format.data).asString = "jpg" ∨ (toLowerL format.data).asString = "jpeg")
    (hbg : ∃ c, parseBackground bgStr ((toLowerL format.data).asString) = .ok c)
    (hjob : ∀ p, ∃ v, job p = .ok v) :
    ∃ rs, convert pathToPdf totalPages first maxPages format bgStr conc (.ok entries) job =
        .ok rs ∧
      rs.map ConvertedPDFPage.pageNumber =
        (listPagePngs entries tempBaseName (resolvedFirst first)
          (resolvedLast totalPages first maxPages)).map (fun e => e.2) ∧
      (∀ p : Nat, (∀ name ∈ entries, matchPagePng tempBaseName name ≠ some p) →
        p ∉ rs.map ConvertedPDFPage.pageNumber) ∧
      (entries = [] → rs = []) := by
  obtain ⟨rs₀, hrs₀⟩ := runJobs_ok_of_all pathToPdf ((toLowerL format.data).asString) job
    (listPagePngs entries tempBaseName (resolvedFirst first)
      (resolvedLast totalPages first maxPages)) (fun e _ => hjob e.2)
  have h₁ := runJobs_ok_pages _ _ _ _ _ hrs₀
  have hpages : (sortByKey ConvertedPDFPage.pageNumber rs₀).map ConvertedPDFPage.pageNumber =
      (listPagePngs entries tempBaseName (resolvedFirst first)
        (resolvedLast totalPages first maxPages)).map (fun e => e.2) := by
    have hperm : List.Perm
        ((sortByKey ConvertedPDFPage.pageNumber rs₀).map ConvertedPDFPage.pageNumber)
        ((listPagePngs entries tempBaseName (resolvedFirst first)
          (resolvedLast totalPages first maxPages)).map (fun e => e.2)) := by
      refine ((sortByKey_perm _ _).map _).trans ?_
      rw [h₁]
    exact List.eq_of_perm_of_sorted hperm (sortByKey_map_sorted _ _)
      (listPagePngs_pages_sorted _ _ _ _)
  refine ⟨sortByKey ConvertedPDFPage.pageNumber rs₀, ?_, hpages, ?_, ?_⟩
  · rw [convert_main pathToPdf totalPages first maxPages format bgStr conc entries job
      htp hrange hfmt hbg, hrs₀]
  · intro p hnone hmem
    rw [hpages] at hmem
    obtain ⟨⟨name, hn, hm⟩, -, -⟩ := (mem_listPagePngs_pages _ _ _ _ _).mp hmem
    exact hnone name hn hm
  · intro he
    subst he
    have hnil : rs₀ = [] := by
      have : runJobs pathToPdf ((toLowerL format.data).asString) job
          (listPagePngs [] tempBaseName (resolvedFirst first)
            (resolvedLast totalPages first maxPages)) = .ok [] := by
        rfl
      rw [this] at hrs₀
      cases hrs₀
      rfl
    rw [hnil]
    rfl

/-- Witness for C9: a 3-page range whose scratch directory only holds the
page-2 rendering converts successfully. -/
theorem convert_omits_missing_pages_witness :
    ∃ rs, convert "doc.pdf" 3 1 10 "png" "#ffffff" (.num 2)
        (.ok ["temp-pdf-2.png".data])
        (fun _ => .ok ("imgdata", "text")) = .ok rs ∧
      rs.map ConvertedPDFPage.pageNumber =
        (listPagePngs ["temp-pdf-2.png".data] tempBaseName (resolvedFirst 1)
          (resolvedLast 3 1 10)).map (fun e => e.2) ∧
      (∀ p : Nat, (∀ name ∈ ["temp-pdf-2.png".data], matchPagePng tempBaseName name ≠ some p) →
        p ∉ rs.map ConvertedPDFPage.pageNumber) ∧
      (["temp-pdf-2.png".data] = ([] : List (List Char)) → rs = []) :=
  convert_omits_missing_pages "doc.pdf" 3 1 10 "png" "#ffffff" (.num 2)
    ["temp-pdf-2.png".data] (fun _ => .ok ("imgdata", "text"))
    (by decide) (by decide) (Or.inl (by decide))
    ⟨(⟨255, 255, 255, 1⟩, false), rfl⟩
    (fun p => ⟨("imgdata", "text"), rfl⟩)

/-- C5: conversion is all-or-nothing.  If any page job of the resolved range
fails, convert returns an error, never a partial list; and any successful
return carries every page of the range (given the renderer produced the
range's files). -/
theorem convert_all_or_nothing (pathToPdf : String) (totalPages first maxPages : Int)
    (format bgStr : String) (conc : JSNum) (entries : List (List Char))
    (job : Nat → Except Unit (String × String))
    (htp : 0 < totalPages)
    (hrange : resolvedFirst first ≤ resolvedLast totalPages first maxPages)
    (hfmt : (toLowerL format.data).asString = "png" ∨
      (toLowerL format.data).asString = "jpg" ∨ (toLowerL format.data).asString = "jpeg")
    (hbg : ∃ c, parseBackground bgStr ((toLowerL format.data).asString) = .ok c)
    (hentries : List.Perm entries
      ((pageRangeList (resolvedFirst first)
        (resolvedLast totalPages first maxPages)).map fileNameFor)) :
    ((∃ p, p ∈ pageRangeList (resolvedFirst first)
        (resolvedLast totalPages first maxPages) ∧ job p = .error ()) →
      ∃ er, convert pathToPdf totalPages first maxPages format bgStr conc
        (.ok entries) job = .error er) ∧
    (∀ rs, convert pathToPdf totalPages first maxPages format bgStr conc
        (.ok entries) job = .ok rs →
      rs.map ConvertedPDFPage.pageNumber =
        pageRangeList (resolvedFirst first) (resolvedLast totalPages first maxPages)) := by
  have hrf : 0 < resolvedFirst first := by
    unfold resolvedFirst
    omega
  have hpages := listPagePngs_pages_of_cover entries _ _ hrf hentries
  constructor
  · rintro ⟨p, hp, hfail⟩
    rw [← hpages] at hp
    obtain ⟨e, he, hep⟩ := List.mem_map.mp hp
    obtain ⟨p', hp'⟩ := runJobs_error_of_failure pathToPdf ((toLowerL format.data).asString)
      job _ e he (by rw [hep]; exact hfail)
    refine ⟨.job p', ?_⟩
    rw [convert_main pathToPdf totalPages first maxPages format bgStr conc entries job
      htp hrange hfmt hbg, hp']
  · intro rs hok
    rw [convert_main pathToPdf totalPages first maxPages format bgStr conc entries job
      htp hrange hfmt hbg] at hok
    rcases hrj : runJobs pathToPdf ((toLowerL format.data).asString) job
        (listPagePngs entries tempBaseName (resolvedFirst first)
          (resolvedLast totalPages first maxPages)) with er | rs₀ <;> rw [hrj] at hok
    · exact Except.noConfusion hok
    · cases hok
      have h₁ := runJobs_ok_pages _ _ _ _ _ hrj
      have hperm : List.Perm
          ((sortByKey ConvertedPDFPage.pageNumber rs₀).map ConvertedPDFPage.pageNumber)
          (pageRangeList (resolvedFirst first) (resolvedLast totalPages first maxPages)) := by
        refine ((sortByKey_perm _ _).map _).trans ?_
        rw [h₁, hpages]
      exact List.eq_of_perm_of_sorted hperm (sortByKey_map_sorted _ _)
        (pageRangeList_sorted _ _)

/-- Witness for C5: the failure of the page-2 job aborts a 3-page
conversion. -/
theorem convert_all_or_nothing_witness :
    ∃ er, convert "doc.pdf" 3 1 10 "png" "#ffffff" (.num 2)
        (.ok ["temp-pdf-1.png".data, "temp-pdf-2.png".data, "temp-pdf-3.png".data])
        (fun p => if p = 2 then .error () else .ok ("imgdata", "text")) = .error er :=
  (convert_all_or_nothing "doc.pdf" 3 1 10 "png" "#ffffff" (.num 2)
    ["temp-pdf-1.png".data, "temp-pdf-2.png".data, "temp-pdf-3.png".data]
    (fun p => if p = 2 then .error () else .ok ("imgdata", "text"))
    (by decide) (by decide) (Or.inl (by decide))
    ⟨(⟨255, 255, 255, 1⟩, false), rfl⟩
    (by decide)).1 ⟨2, by decide, rfl⟩


/-- C6 counterexample: the string `"#0000"` is not the token `"transparent"`,
its length after stripping the leading `#` is 4 (neither 6 nor 8), yet
`parseBackground` accepts it (the source's transparent branch also matches
`s === "#0000"`), contradicting the claim that every such input fails. -/
theorem parseBackground_hash0000_accepted :
    "#0000".data ≠ "transparent".data ∧
    "#0000".data.tail.length = 4 ∧
    parseBackground "#0000" "png" = .ok (⟨0, 0, 0, 0⟩, false) := by
  refine ⟨by decide, by decide, ?_⟩
  rfl

/-- C6 (amended): `parseBackground` fails with the InvalidColor error exactly
when the trimmed, lowercased input is neither `"transparent"` nor `"#0000"`
and, after stripping a leading `#`, its length is not 6 or 8 or it contains a
non-hex character. -/
theorem parseBackground_error_characterisation (input fmt : String) :
    (∃ e, parseBackground input fmt = Except.error e) ↔
      (toLowerL (trimL input.data) ≠ "transparent".data ∧
       toLowerL (trimL input.data) ≠ "#0000".data ∧
       (((stripHash (toLowerL (trimL input.data))).length ≠ 6 ∧
         (stripHash (toLowerL (trimL input.data))).length ≠ 8) ∨
        (stripHash (toLowerL (trimL input.data))).all isHexLower = false)) := by
  simp only [parseBackground, parseBackgroundCore]
  rcases em (toLowerL (trimL input.data) = "transparent".data) with h₁ | h₁
  · rw [if_pos (by simp [h₁])]
    constructor
    · rintro ⟨e, he⟩
      split at he <;> exact Except.noConfusion he
    · rintro ⟨hc, -⟩
      exact absurd h₁ hc
  · rcases em (toLowerL (trimL input.data) = "#0000".data) with h₂ | h₂
    · rw [if_pos (by simp [h₂])]
      constructor
      · rintro ⟨e, he⟩
        split at he <;> exact Except.noConfusion he
      · rintro ⟨-, hc, -⟩
        exact absurd h₂ hc
    · rw [if_neg (by simp [h₁, h₂])]
      rcases em (((stripHash (toLowerL (trimL input.data))).length = 6 ∨
          (stripHash (toLowerL (trimL input.data))).length = 8) ∧
          (stripHash (toLowerL (trimL input.data))).all isHexLower = true) with h₃ | h₃
      · rw [if_pos (by simpa using h₃)]
        simp only [reduceCtorEq, exists_false, false_iff]
        rintro ⟨-, -, (⟨hn6, hn8⟩ | hfalse)⟩
        · rcases h₃.1 with h | h
          · exact hn6 h
          · exact hn8 h
        · rw [h₃.2] at hfalse
          exact Bool.noConfusion hfalse
      · rw [if_neg (by simpa using h₃)]
        simp only [Except.error.injEq, exists_eq', true_iff]
        refine ⟨h₁, h₂, ?_⟩
        rcases em ((stripHash (toLowerL (trimL input.data))).all isHexLower = true) with hall | hall
        · exact Or.inl ⟨fun h6 => h₃ ⟨Or.inl h6, hall⟩, fun h8 => h₃ ⟨Or.inr h8, hall⟩⟩
        · exact Or.inr (by simpa using hall)

/-- C7: a "transparent" background yields the fully transparent colour for
png output, and opaque white plus the console warning for jpg/jpeg output. -/
theorem parseBackground_transparent_behaviour (input fmt : String)
    (h : toLowerL (trimL input.data) = "transparent".data) :
    (fmt = "png" → parseBackground input fmt = .ok (⟨0, 0, 0, 0⟩, false)) ∧
    ((fmt = "jpg" ∨ fmt = "jpeg") → parseBackground input fmt = .ok (⟨255, 255, 255, 1⟩, true)) := by
  simp only [parseBackground, parseBackgroundCore]
  rw [if_pos (by simp [h])]
  constructor
  · intro hp
    rw [if_pos hp]
  · rintro (hf | hf) <;> rw [if_neg (by simp [hf])]

/-- Witness for C7 at the concrete inputs "transparent"/png and
"transparent"/jpeg. -/
theorem parseBackground_transparent_behaviour_witness :
    parseBackground "transparent" "png" = .ok (⟨0, 0, 0, 0⟩, false) ∧
    parseBackground "transparent" "jpeg" = .ok (⟨255, 255, 255, 1⟩, true) :=
  ⟨(parseBackground_transparent_behaviour "transparent" "png" (by decide)).1 rfl,
   (parseBackground_transparent_behaviour "transparent" "jpeg" (by decide)).2 (Or.inr rfl)⟩

/-- Any well-formed hex colour string (optional leading `#`, 6 or 8 lowercase
hex digits) parses to `colorOfHex` of its digits with no warning. -/
theorem parseBackgroundCore_hex (fmt : String) (pre ds : List Char)
    (hpre : pre = [] ∨ pre = ['#']) (hne : ds ≠ [])
    (hlen : ds.length = 6 ∨ ds.length = 8) (hall : ds.all isHexLower = true) :
    parseBackgroundCore (pre ++ ds) fmt = .ok (colorOfHex ds, false) := by
  have h₁ : pre ++ ds ≠ "transparent".data := by
    intro hcontra
    have := congrArg List.length hcontra
    rcases hpre with rfl | rfl <;> rcases hlen with h6 | h6 <;>
      simp [h6, List.length_append] at this
  have h₂ : pre ++ ds ≠ "#0000".data := by
    intro hcontra
    have := congrArg List.length hcontra
    rcases hpre with rfl | rfl <;> rcases hlen with h6 | h6 <;>
      simp [h6, List.length_append] at this
  have hstrip : stripHash (pre ++ ds) = ds := by
    rcases hpre with rfl | rfl
    · simp only [List.nil_append, stripHash]
      cases ds with
      | nil => exact absurd rfl hne
      | cons x xs =>
        have hx : x ≠ '#' := by
          intro hx
          rw [hx] at hall
          simp [List.all_cons, isHexLower] at hall
        rw [if_neg (by simp [hx])]
    · simp [stripHash]
  simp only [parseBackgroundCore, hstrip]
  rw [if_neg (by simp [h₁, h₂])]
  rw [if_pos (by rcases hlen with h | h <;> simp [h, hall])]

/-- C8: a valid 6-digit hex input yields the colour whose r, g, b components
are the three hex byte pairs with alpha 1; a valid 8-digit hex input
additionally sets alpha to the fourth byte pair divided by 255.  In
particular "#ffffff" is opaque white and "#ff0000aa" is red with
alpha 170/255. -/
theorem parseBackground_hex_semantics :
    (∀ (fmt : String) (pre : List Char) (a b c d e f : Char),
        (pre = [] ∨ pre = ['#']) →
        ([a, b, c, d, e, f]).all isHexLower = true →
        parseBackgroundCore (pre ++ [a, b, c, d, e, f]) fmt =
          .ok (⟨hexByte a b, hexByte c d, hexByte e f, 1⟩, false)) ∧
    (∀ (fmt : String) (pre : List Char) (a b c d e f g h : Char),
        (pre = [] ∨ pre = ['#']) →
        ([a, b, c, d, e, f, g, h]).all isHexLower = true →
        parseBackgroundCore (pre ++ [a, b, c, d, e, f, g, h]) fmt =
          .ok (⟨hexByte a b, hexByte c d, hexByte e f, (hexByte g h : Rat) / 255⟩, false)) ∧
    parseBackground "#ffffff" "png" = .ok (⟨255, 255, 255, 1⟩, false) ∧
    parseBackground "#ff0000aa" "png" = .ok (⟨255, 0, 0, (170 : Rat) / 255⟩, false) := by
  refine ⟨?_, ?_, ?_, ?_⟩
  · intro fmt pre a b c d e f hpre hall
    exact parseBackgroundCore_hex fmt pre _ hpre (by simp) (by simp) hall
  · intro fmt pre a b c d e f g h hpre hall
    exact parseBackgroundCore_hex fmt pre _ hpre (by simp) (by simp) hall
  · rfl
  · show parseBackgroundCore (toLowerL (trimL "#ff0000aa".data)) "png" = _
    have hlist : toLowerL (trimL "#ff0000aa".data) =
        ['#'] ++ ['f', 'f', '0', '0', '0', '0', 'a', 'a'] := by decide
    rw [hlist, parseBackgroundCore_hex "png" ['#'] _ (Or.inr rfl) (by decide) (by decide) (by decide)]
    have hr : hexByte 'f' 'f' = 255 := by decide
    have hg : hexByte '0' '0' = 0 := by decide
    have ha : hexByte 'a' 'a' = 170 := by decide
    simp [colorOfHex, hr, hg, ha]

/-- Witness for C8 at a concrete valid 6-digit hex input. -/
theorem parseBackground_hex_semantics_witness :
    parseBackgroundCore (['#'] ++ ['a', 'b', 'c', 'd', 'e', 'f']) "png" =
      .ok (⟨hexByte 'a' 'b', hexByte 'c' 'd', hexByte 'e' 'f', 1⟩, false) :=
  parseBackground_hex_semantics.1 "png" ['#'] 'a' 'b' 'c' 'd' 'e' 'f' (Or.inr rfl) (by decide)

/-- C10: the expression `Number(opts.concurrency) || 4` used by convert falls
back to 4 when the numeric value is 0 or NaN, and keeps any other value. -/
theorem resolvedConcurrency_fallback :
    resolvedConcurrency (.num 0) = 4 ∧ resolvedConcurrency .nan = 4 ∧
    ∀ q : Rat, q ≠ 0 → resolvedConcurrency (.num q) = q := by
  refine ⟨rfl, rfl, fun q hq => ?_⟩
  simp [resolvedConcurrency, jsOrDefault, hq]

/-- Witness for C10, applying the fallback at 0 and the pass-through at 7. -/
theorem resolvedConcurrency_fallback_witness :
    resolvedConcurrency (.num 0) = 4 ∧ resolvedConcurrency (.num 7) = 7 :=
  ⟨resolvedConcurrency_fallback.1, resolvedConcurrency_fallback.2.2 7 (by norm_num)⟩


/-! ### Compositor and limiter claims -/

/-- C3: the contain-fit contract of the compositor (modelled from the spec,
sharp being external).  The output canvas is exactly targetSize x targetSize;
the scaled source fits inside it with its longer dimension spanning the full
canvas (uniform scale, no cropping); it is centred on both axes (the two pads
of each axis differ by at most one pixel); every uncovered canvas pixel is the
background colour; and covered pixels sample inside the source bounds. -/
theorem resizeContain_contract (r : Raster) (t : Nat) (bg : ColorSpec)
    (hw : 0 < r.width) (hh : 0 < r.height) (ht : 0 < t) :
    (resizeContain r t bg).width = t ∧
    (resizeContain r t bg).height = t ∧
    scaledW r t ≤ t ∧ scaledH r t ≤ t ∧
    max (scaledW r t) (scaledH r t) = t ∧
    scaledOffX r t + scaledW r t ≤ t ∧
    scaledOffY r t + scaledH r t ≤ t ∧
    (t - (scaledOffX r t + scaledW r t) ≤ scaledOffX r t + 1 ∧
      scaledOffX r t ≤ t - (scaledOffX r t + scaledW r t) + 1) ∧
    (t - (scaledOffY r t + scaledH r t) ≤ scaledOffY r t + 1 ∧
      scaledOffY r t ≤ t - (scaledOffY r t + scaledH r t) + 1) ∧
    (∀ x y, x < t → y < t →
      ¬(scaledOffX r t ≤ x ∧ x < scaledOffX r t + scaledW r t ∧
          scaledOffY r t ≤ y ∧ y < scaledOffY r t + scaledH r t) →
      (resizeContain r t bg).pix x y = bg) ∧
    (∀ x y, scaledOffX r t ≤ x → x < scaledOffX r t + scaledW r t →
      scaledOffY r t ≤ y → y < scaledOffY r t + scaledH r t →
      (x - scaledOffX r t) * max r.width r.height / t < r.width ∧
      (y - scaledOffY r t) * max r.width r.height / t < r.height) := by
  have hm : 0 < max r.width r.height := lt_of_lt_of_le hw (le_max_left _ _)
  have hwle : scaledW r t ≤ t := by
    calc scaledW r t ≤ max r.width r.height * t / max r.width r.height :=
          Nat.div_le_div_right (Nat.mul_le_mul_right _ (le_max_left _ _))
    _ = t := Nat.mul_div_cancel_left _ hm
  have hhle : scaledH r t ≤ t := by
    calc scaledH r t ≤ max r.width r.height * t / max r.width r.height :=
          Nat.div_le_div_right (Nat.mul_le_mul_right _ (le_max_right _ _))
    _ = t := Nat.mul_div_cancel_left _ hm
  have hmax : max (scaledW r t) (scaledH r t) = t := by
    rcases le_total r.width r.height with hcase | hcase
    · have h1 : max r.width r.height = r.height := max_eq_right hcase
      have h2 : scaledH r t = t := by
        rw [scaledH, h1, Nat.mul_div_cancel_left _ hh]
      rw [h2]
      exact max_eq_right hwle
    · have h1 : max r.width r.height = r.width := max_eq_left hcase
      have h2 : scaledW r t = t := by
        rw [scaledW, h1, Nat.mul_div_cancel_left _ hw]
      rw [h2]
      exact max_eq_left hhle
  have hx2 : (t - scaledW r t) / 2 ≤ t - scaledW r t := Nat.div_le_self _ _
  have hy2 : (t - scaledH r t) / 2 ≤ t - scaledH r t := Nat.div_le_self _ _
  refine ⟨rfl, rfl, hwle, hhle, hmax, ?_, ?_, ?_, ?_, ?_, ?_⟩
  · simp only [scaledOffX]
    omega
  · simp only [scaledOffY]
    omega
  · simp only [scaledOffX]
    omega
  · simp only [scaledOffY]
    omega
  · intro x y _ _ hnot
    simp only [resizeContain]
    exact if_neg hnot
  · intro x y h1 h2 h3 h4
    constructor
    · rw [Nat.div_lt_iff_lt_mul ht]
      have hdm : scaledW r t * max r.width r.height ≤ r.width * t := by
        rw [scaledW]
        exact Nat.div_mul_le_self _ _
      have hmul : (x - scaledOffX r t + 1) * max r.width r.height ≤
          scaledW r t * max r.width r.height :=
        Nat.mul_le_mul_right _ (by omega)
      have hstep : (x - scaledOffX r t) * max r.width r.height <
          (x - scaledOffX r t + 1) * max r.width r.height := by
        have := hm
        nlinarith
      exact lt_of_lt_of_le hstep (le_trans hmul hdm)
    · rw [Nat.div_lt_iff_lt_mul ht]
      have hdm : scaledH r t * max r.width r.height ≤ r.height * t := by
        rw [scaledH]
        exact Nat.div_mul_le_self _ _
      have hmul : (y - scaledOffY r t + 1) * max r.width r.height ≤
          scaledH r t * max r.width r.height :=
        Nat.mul_le_mul_right _ (by omega)
      have hstep : (y - scaledOffY r t) * max r.width r.height <
          (y - scaledOffY r t + 1) * max r.width r.height := by
        have := hm
        nlinarith
      exact lt_of_lt_of_le hstep (le_trans hmul hdm)

/-- Witness for C3 at a 4x2 landscape raster composited onto a 6x6 canvas. -/
theorem resizeContain_contract_witness :
    (resizeContain ⟨4, 2, fun _ _ => ⟨0, 0, 0, 1⟩⟩ 6 ⟨255, 255, 255, 1⟩).width = 6 ∧
    (resizeContain ⟨4, 2, fun _ _ => ⟨0, 0, 0, 1⟩⟩ 6 ⟨255, 255, 255, 1⟩).height = 6 :=
  ⟨(resizeContain_contract ⟨4, 2, fun _ _ => ⟨0, 0, 0, 1⟩⟩ 6 ⟨255, 255, 255, 1⟩
      (by decide) (by decide) (by decide)).1,
   (resizeContain_contract ⟨4, 2, fun _ _ => ⟨0, 0, 0, 1⟩⟩ 6 ⟨255, 255, 255, 1⟩
      (by decide) (by decide) (by decide)).2.1⟩

theorem tryNext_limit (s : LimitState) : (tryNext s).limit = s.limit := by
  rcases hq : s.queue with _ | ⟨t, q⟩ <;> simp only [tryNext, hq] <;> split <;> rfl

theorem limitStep_limit (s : LimitState) (e : LimitEvent) :
    (limitStep s e).limit = s.limit := by
  cases e with
  | submit t => rw [limitStep, tryNext_limit]
  | settle t ok =>
    rw [limitStep]
    split
    · rw [tryNext_limit]
    · rfl

theorem limitRun_limit (es : List LimitEvent) : ∀ s, (limitRun s es).limit = s.limit := by
  induction es with
  | nil => intro s; rfl
  | cons e es ih =>
    intro s
    rw [limitRun, List.foldl_cons, ← limitRun, ih, limitStep_limit]

theorem limitStep_inv (s : LimitState) (e : LimitEvent) (h : LimitInv s) :
    LimitInv (limitStep s e) := by
  obtain ⟨h1, h2⟩ := h
  obtain ⟨l, q0, r, st, se⟩ := s
  dsimp only at h1 h2
  cases e with
  | submit t =>
    rcases q0 with _ | ⟨u, q⟩
    · dsimp [limitStep, tryNext]
      by_cases hlt : r.length < l
      · rw [if_pos hlt]
        refine ⟨?_, fun hc => absurd rfl hc⟩
        show (r ++ [t]).length ≤ l
        simp only [List.length_append, List.length_singleton]
        omega
      · rw [if_neg hlt]
        exact ⟨h1, fun _ => by show r.length = l; omega⟩
    · have hfull : r.length = l := h2 (by simp)
      dsimp [limitStep, tryNext]
      rw [if_neg (by omega)]
      exact ⟨h1, fun _ => hfull⟩
  | settle t ok =>
    by_cases hmem : t ∈ r
    · have hpos : 0 < r.length := List.length_pos.mpr (List.ne_nil_of_mem hmem)
      have herase : (r.erase t).length = r.length - 1 := List.length_erase_of_mem hmem
      rcases q0 with _ | ⟨u, q⟩
      · dsimp [limitStep, tryNext]
        rw [if_pos hmem]
        refine ⟨?_, fun hc => absurd rfl hc⟩
        show (r.erase t).length ≤ l
        omega
      · have hfull : r.length = l := h2 (by simp)
        dsimp [limitStep, tryNext]
        rw [if_pos hmem, if_pos (by omega)]
        constructor
        · show (r.erase t ++ [u]).length ≤ l
          simp only [List.length_append, List.length_singleton]
          omega
        · intro _
          show (r.erase t ++ [u]).length = l
          simp only [List.length_append, List.length_singleton]
          omega
    · dsimp [limitStep]
      rw [if_neg hmem]
      exact ⟨h1, h2⟩

theorem limitRun_inv (es : List LimitEvent) :
    ∀ s, LimitInv s → LimitInv (limitRun s es) := by
  induction es with
  | nil => exact fun s h => h
  | cons e es ih =>
    intro s h
    rw [limitRun, List.foldl_cons, ← limitRun]
    exact ih _ (limitStep_inv s e h)

theorem tryNext_count (s : LimitState) (t : Nat) :
    (tryNext s).started.count t + (tryNext s).queue.count t =
      s.started.count t + s.queue.count t := by
  obtain ⟨l, q0, r, st, se⟩ := s
  rcases q0 with _ | ⟨u, q⟩
  · rfl
  · dsimp [tryNext]
    by_cases hlt : r.length < l
    · rw [if_pos hlt]
      dsimp
      by_cases htu : t = u <;>
        simp [List.count_append, List.count_cons, htu] <;> omega
    · rw [if_neg hlt]

theorem limitStep_count (s : LimitState) (e : LimitEvent) (t : Nat) :
    (limitStep s e).started.count t + (limitStep s e).queue.count t =
      s.started.count t + s.queue.count t +
        (match e with | .submit u => if u = t then 1 else 0 | _ => 0) := by
  cases e with
  | submit u =>
    dsimp only [limitStep]
    rw [tryNext_count]
    dsimp
    by_cases hut : u = t <;>
      simp [List.count_append, List.count_cons, hut] <;> omega
  | settle u ok =>
    dsimp only [limitStep]
    by_cases hmem : u ∈ s.running
    · rw [if_pos hmem, tryNext_count]
      rfl
    · rw [if_neg hmem]
      rfl

theorem limitRun_count (es : List LimitEvent) :
    ∀ (s : LimitState) (t : Nat),
      (limitRun s es).started.count t + (limitRun s es).queue.count t =
        s.started.count t + s.queue.count t + (submitsOf es).count t := by
  induction es with
  | nil => intro s t; simp [limitRun, submitsOf]
  | cons e es ih =>
    intro s t
    rw [limitRun, List.foldl_cons, ← limitRun, ih, limitStep_count]
    cases e with
    | submit u =>
      dsimp only [submitsOf, List.filterMap_cons]
      by_cases hut : u = t <;> simp [List.count_cons, hut, submitsOf] <;> omega
    | settle u ok =>
      simp [submitsOf, List.filterMap_cons]

theorem tryNext_settled (s : LimitState) : (tryNext s).settled = s.settled := by
  obtain ⟨l, q0, r, st, se⟩ := s
  rcases q0 with _ | ⟨u, q⟩
  · rfl
  · dsimp [tryNext]
    split <;> rfl

theorem limitStep_settled (s : LimitState) (e : LimitEvent) (t : Nat) (ok : Bool) :
    (t, ok) ∈ (limitStep s e).settled →
      (t, ok) ∈ s.settled ∨ e = .settle t ok := by
  cases e with
  | submit u =>
    rw [limitStep, tryNext_settled]
    exact fun h => Or.inl h
  | settle u ok' =>
    rw [limitStep]
    split
    · rw [tryNext_settled]
      dsimp
      simp only [List.mem_append, List.mem_singleton]
      rintro (h | h)
      · exact Or.inl h
      · rw [Prod.mk.injEq] at h
        obtain ⟨rfl, rfl⟩ := h
        exact Or.inr rfl
    · exact fun h => Or.inl h

theorem limitRun_settled (es : List LimitEvent) :
    ∀ (s : LimitState) (t : Nat) (ok : Bool),
      (t, ok) ∈ (limitRun s es).settled →
        (t, ok) ∈ s.settled ∨ LimitEvent.settle t ok ∈ es := by
  induction es with
  | nil => exact fun s t ok h => Or.inl h
  | cons e es ih =>
    intro s t ok h
    rw [limitRun, List.foldl_cons, ← limitRun] at h
    rcases ih _ t ok h with h' | h'
    · rcases limitStep_settled s e t ok h' with h'' | h''
      · exact Or.inl h''
      · exact Or.inr (by rw [h'']; simp)
    · exact Or.inr (by simp [h'])

theorem sched_tryNext (s₁ s₂ : LimitState) (h : sched s₁ = sched s₂) :
    sched (tryNext s₁) = sched (tryNext s₂) := by
  obtain ⟨l₁, q₁, r₁, st₁, se₁⟩ := s₁
  obtain ⟨l₂, q₂, r₂, st₂, se₂⟩ := s₂
  simp only [sched, Prod.mk.injEq] at h
  obtain ⟨hl, hq, hr, hs⟩ := h
  subst hl
  subst hq
  subst hr
  subst hs
  rcases q₁ with _ | ⟨u, q⟩
  · rfl
  · by_cases hlt : r₁.length < l₁
    · simp [tryNext, hlt, sched]
    · simp [tryNext, hlt, sched]

theorem sched_step (s₁ s₂ : LimitState) (h : sched s₁ = sched s₂) (e : LimitEvent) :
    sched (limitStep s₁ (forgetOutcome e)) = sched (limitStep s₂ e) := by
  obtain ⟨l₁, q₁, r₁, st₁, se₁⟩ := s₁
  obtain ⟨l₂, q₂, r₂, st₂, se₂⟩ := s₂
  simp only [sched, Prod.mk.injEq] at h
  obtain ⟨hl, hq, hr, hs⟩ := h
  subst hl
  subst hq
  subst hr
  subst hs
  cases e with
  | submit t =>
    exact sched_tryNext _ _ rfl
  | settle t ok =>
    dsimp only [forgetOutcome, limitStep]
    by_cases hmem : t ∈ r₁
    · rw [if_pos hmem, if_pos hmem]
      exact sched_tryNext _ _ rfl
    · rw [if_neg hmem, if_neg hmem]
      rfl

theorem sched_run (es : List LimitEvent) :
    ∀ s₁ s₂, sched s₁ = sched s₂ →
      sched (limitRun s₁ (es.map forgetOutcome)) = sched (limitRun s₂ es) := by
  induction es with
  | nil => exact fun s₁ s₂ h => h
  | cons e es ih =>
    intro s₁ s₂ h
    simp only [List.map_cons, limitRun, List.foldl_cons]
    exact ih _ _ (sched_step s₁ s₂ h e)

/-- C4: for every limit n >= 1 and every event trace: (a) never more than n
tasks run concurrently; (b) every submitted task is, counted with
multiplicity, either already started or still queued — started exactly as
often as submitted, so no task is dropped or duplicated; (c) once the running
set drains, every submitted task has been started; (d) the scheduling state
(queue, running set, start order) is identical whether settlements are
failures or successes, so one task's rejection never prevents siblings from
running; and (e) each recorded outcome is delivered for exactly the task that
settled with it. -/
theorem pLimit_contract (n : Nat) (hn : 1 ≤ n) (es : List LimitEvent) :
    (limitRun (limitInit n) es).running.length ≤ n ∧
    ((limitRun (limitInit n) es).queue ≠ [] →
      (limitRun (limitInit n) es).running.length = n) ∧
    (∀ t, (limitRun (limitInit n) es).started.count t +
        (limitRun (limitInit n) es).queue.count t = (submitsOf es).count t) ∧
    ((limitRun (limitInit n) es).running = [] →
      ∀ t, (limitRun (limitInit n) es).started.count t = (submitsOf es).count t) ∧
    sched (limitRun (limitInit n) (es.map forgetOutcome)) =
      sched (limitRun (limitInit n) es) ∧
    (∀ t ok, (t, ok) ∈ (limitRun (limitInit n) es).settled →
      LimitEvent.settle t ok ∈ es) := by
  have hlim : (limitRun (limitInit n) es).limit = n := limitRun_limit es (limitInit n)
  obtain ⟨h1, h2⟩ := limitRun_inv es (limitInit n) ⟨by simp [limitInit], by simp [limitInit]⟩
  have hcount := limitRun_count es (limitInit n)
  refine ⟨?_, ?_, ?_, ?_, ?_, ?_⟩
  · exact le_trans h1 (le_of_eq hlim)
  · intro hq
    exact (h2 hq).trans hlim
  · intro t
    simpa [limitInit] using hcount t
  · intro hrun t
    have hq : (limitRun (limitInit n) es).queue = [] := by
      by_contra hq
      have hfull := h2 hq
      rw [hrun] at hfull
      simp only [List.length_nil] at hfull
      omega
    have := hcount t
    rw [hq] at this
    simpa [limitInit] using this
  · exact sched_run es _ _ rfl
  · intro t ok h
    rcases limitRun_settled es (limitInit n) t ok h with h' | h'
    · simp [limitInit] at h'
    · exact h'

/-- Witness for C4: three tasks through limit 2 with one rejection. -/
theorem pLimit_contract_witness :
    (limitRun (limitInit 2) [.submit 1, .submit 2, .submit 3, .settle 1 false,
        .settle 2 true, .settle 3 true]).running.length ≤ 2 :=
  (pLimit_contract 2 (by decide) [.submit 1, .submit 2, .submit 3, .settle 1 false,
    .settle 2 true, .settle 3 true]).1

end Pdf2Square
